import Mathlib

/-!
Verification development for the PyFluff repository.

The development shallowly embeds the parts of the code base that the
properties below talk about:

- `pyfluff/furby_cache.py` (`FurbyCache`): a JSON-persisted cache of known
  devices with debounced asynchronous saves, embedded as an explicit state
  machine (`CacheState`) whose scheduled save tasks are recorded in a task
  table.
- `pyfluff/homeassistant.py` (`HomeAssistantMQTT`): the MQTT bridge, embedded
  as pure functions from the object state to (new state, published messages).
- The DLC transfer core (chunk scheduler, slot registry, slot lifecycle
  controller): its implementation module is not part of the sources available
  here, so those components are modelled from the specification text, as
  flagged in the corresponding doc comments.

Machine integers do not occur: all counters are naturals.  Timestamps
(`time.time()`) are modelled by an abstract monotone tick counter.
-/

/-! ## A model of JSON values

The cache file and the MQTT discovery payloads are JSON documents
(`json.dumps` / `json.load` in the source).  We model JSON at the level of its
value tree; the textual rendering is a library concern.
-/

inductive Json where
  | nul : Json
  | str (s : String) : Json
  | num (n : Nat) : Json
  | boolean (b : Bool) : Json
  | arr (elems : List Json) : Json
  | obj (fields : List (String × Json)) : Json
deriving Repr

/-- Field lookup in a JSON object, first occurrence wins (as in Python dict
construction from a JSON text). -/
def jsonLookup (fields : List (String × Json)) (key : String) : Option Json :=
  match fields with
  | [] => none
  | (k, v) :: rest => if k = key then some v else jsonLookup rest key

/-! ## Data model of the cache (`pyfluff/models.py` as used by `furby_cache.py`)

`KnownFurby` carries exactly the fields `furby_cache.py` reads and writes:
`address`, `last_seen`, `name`, `name_id`, `device_name`,
`firmware_revision`.  `last_seen` is an abstract clock tick. -/

structure KnownFurby where
  address : String
  last_seen : Nat
  name : Option String
  name_id : Option Nat
  device_name : Option String
  firmware_revision : Option String
deriving DecidableEq, Repr

/-- `KnownFurbiesConfig`: a mapping address → entry.  Python dicts preserve
insertion order and update values in place, so the mapping is an association
list with in-place update. -/
structure KnownFurbiesConfig where
  furbies : List (String × KnownFurby)
deriving DecidableEq, Repr

/-- Dict read: `self.config.furbies.get(address)`. -/
def assocGet (l : List (String × KnownFurby)) (k : String) : Option KnownFurby :=
  match l with
  | [] => none
  | (k', v) :: rest => if k' = k then some v else assocGet rest k

/-- Dict write `d[k] = v`: replaces in place when the key exists (keeping its
position), appends otherwise. -/
def assocSet (l : List (String × KnownFurby)) (k : String) (v : KnownFurby) :
    List (String × KnownFurby) :=
  match l with
  | [] => [(k, v)]
  | (k', v') :: rest =>
      if k' = k then (k, v) :: rest else (k', v') :: assocSet rest k v

/-- Dict delete `del d[k]`. -/
def assocRemove (l : List (String × KnownFurby)) (k : String) :
    List (String × KnownFurby) :=
  match l with
  | [] => []
  | (k', v') :: rest =>
      if k' = k then rest else (k', v') :: assocRemove rest k

/-! ## Serialization (`model_dump` + `json.dumps`) and validation
(`KnownFurbiesConfig(**data)`) -/

/-- An optional string field serializes to JSON null when absent. -/
def optStrJson : Option String → Json
  | none => .nul
  | some s => .str s

/-- An optional numeric field serializes to JSON null when absent. -/
def optNumJson : Option Nat → Json
  | none => .nul
  | some n => .num n

/-- `KnownFurby.model_dump()`: all six fields, always present. -/
def serializeFurby (f : KnownFurby) : Json :=
  .obj [("address", .str f.address),
        ("last_seen", .num f.last_seen),
        ("name", optStrJson f.name),
        ("name_id", optNumJson f.name_id),
        ("device_name", optStrJson f.device_name),
        ("firmware_revision", optStrJson f.firmware_revision)]

/-- `KnownFurbiesConfig.model_dump()`: `{"furbies": {addr: entry, ...}}`. -/
def serializeConfig (c : KnownFurbiesConfig) : Json :=
  .obj [("furbies", .obj (c.furbies.map (fun e => (e.1, serializeFurby e.2))))]

/-- Reads a required string field during validation. -/
def getStrField (fields : List (String × Json)) (key : String) : Option String :=
  match jsonLookup fields key with
  | some (.str s) => some s
  | _ => none

/-- Reads a required numeric field during validation. -/
def getNumField (fields : List (String × Json)) (key : String) : Option Nat :=
  match jsonLookup fields key with
  | some (.num n) => some n
  | _ => none

/-- Reads an optional (nullable) string field during validation. -/
def getOptStrField (fields : List (String × Json)) (key : String) :
    Option (Option String) :=
  match jsonLookup fields key with
  | some (.str s) => some (some s)
  | some .nul => some none
  | _ => none

/-- Reads an optional (nullable) numeric field during validation. -/
def getOptNumField (fields : List (String × Json)) (key : String) :
    Option (Option Nat) :=
  match jsonLookup fields key with
  | some (.num n) => some (some n)
  | some .nul => some none
  | _ => none

/-- Validation of one cache entry (pydantic model construction); `none` is a
validation failure. -/
def parseFurby (j : Json) : Option KnownFurby :=
  match j with
  | .obj fields => do
      let address ← getStrField fields "address"
      let last_seen ← getNumField fields "last_seen"
      let name ← getOptStrField fields "name"
      let name_id ← getOptNumField fields "name_id"
      let device_name ← getOptStrField fields "device_name"
      let firmware_revision ← getOptStrField fields "firmware_revision"
      pure ⟨address, last_seen, name, name_id, device_name, firmware_revision⟩
  | _ => none

/-- Validation of the entries of the `furbies` mapping, entry by entry; any
failing entry fails the whole validation. -/
def parseEntries : List (String × Json) → Option (List (String × KnownFurby))
  | [] => some []
  | (k, v) :: rest => do
      let f ← parseFurby v
      let tl ← parseEntries rest
      pure ((k, f) :: tl)

/-- Validation of the whole cache file (`KnownFurbiesConfig(**data)`). -/
def parseConfig (j : Json) : Option KnownFurbiesConfig :=
  match j with
  | .obj fields =>
      match jsonLookup fields "furbies" with
      | some (.obj entries) => (parseEntries entries).map KnownFurbiesConfig.mk
      | _ => none
  | _ => none

theorem parseFurby_serializeFurby (f : KnownFurby) :
    parseFurby (serializeFurby f) = some f := by
  obtain ⟨a, ls, n, ni, dn, fw⟩ := f
  cases n <;> cases ni <;> cases dn <;> cases fw <;>
    simp [serializeFurby, parseFurby, jsonLookup, getStrField, getNumField,
      getOptStrField, getOptNumField, optStrJson, optNumJson]

theorem parseEntries_serialized (l : List (String × KnownFurby)) :
    parseEntries (l.map (fun e => (e.1, serializeFurby e.2))) = some l := by
  induction l with
  | nil => rfl
  | cons hd tl ih =>
      simp [parseEntries, parseFurby_serializeFurby, ih]

theorem parseConfig_serializeConfig (c : KnownFurbiesConfig) :
    parseConfig (serializeConfig c) = some c := by
  obtain ⟨furbies⟩ := c
  simp [serializeConfig, parseConfig, jsonLookup, parseEntries_serialized]

/-! ## Stable descending sort

`get_all` runs `furbies.sort(key=lambda f: f.last_seen, reverse=True)`:
a stable sort by descending `last_seen` (entries with equal timestamps keep
their relative order).  We embed it as a stable insertion sort, which computes
the same function. -/

/-- Inserts an entry after every already-placed entry whose `last_seen` is at
least as large, preserving stability for equal keys. -/
def insertDesc (f : KnownFurby) : List KnownFurby → List KnownFurby
  | [] => [f]
  | g :: rest =>
      if f.last_seen ≤ g.last_seen then g :: insertDesc f rest
      else f :: g :: rest

/-- Stable sort by descending `last_seen`. -/
def sortByLastSeenDesc (l : List KnownFurby) : List KnownFurby :=
  l.foldl (fun acc f => insertDesc f acc) []

/-- The comparison `get_all` sorts by: newest first. -/
def descLastSeen (a b : KnownFurby) : Prop := b.last_seen ≤ a.last_seen

instance : DecidableRel descLastSeen := fun a b =>
  inferInstanceAs (Decidable (b.last_seen ≤ a.last_seen))

theorem insertDesc_perm (f : KnownFurby) (l : List KnownFurby) :
    (insertDesc f l).Perm (f :: l) := by
  induction l with
  | nil => simp [insertDesc]
  | cons g rest ih =>
      by_cases h : f.last_seen ≤ g.last_seen
      · simp only [insertDesc, if_pos h]
        exact (ih.cons g).trans (List.Perm.swap f g rest)
      · simp [insertDesc, if_neg h]

theorem insertDesc_pairwise (f : KnownFurby) (l : List KnownFurby)
    (hl : l.Pairwise descLastSeen) :
    (insertDesc f l).Pairwise descLastSeen := by
  induction l with
  | nil => simp [insertDesc, List.pairwise_singleton]
  | cons g rest ih =>
      rcases List.pairwise_cons.mp hl with ⟨hg, hrest⟩
      by_cases h : f.last_seen ≤ g.last_seen
      · simp only [insertDesc, if_pos h]
        refine List.pairwise_cons.mpr ⟨?_, ih hrest⟩
        intro x hx
        have hx2 := (insertDesc_perm f rest).mem_iff.mp hx
        rcases List.mem_cons.mp hx2 with hx2 | hx2
        · subst hx2; exact h
        · exact hg x hx2
      · simp only [insertDesc, if_neg h]
        refine List.pairwise_cons.mpr ⟨?_, hl⟩
        intro x hx
        rcases List.mem_cons.mp hx with hx | hx
        · subst hx; exact Nat.le_of_not_le h
        · exact Nat.le_trans (hg x hx) (Nat.le_of_not_le h)

theorem sortByLastSeenDesc_perm (l : List KnownFurby) :
    (sortByLastSeenDesc l).Perm l := by
  suffices h : ∀ acc : List KnownFurby,
      (l.foldl (fun acc f => insertDesc f acc) acc).Perm (l.reverse ++ acc) by
    have h0 := h []
    rw [List.append_nil] at h0
    exact h0.trans (List.reverse_perm l)
  induction l with
  | nil => intro acc; simp
  | cons hd tl ih =>
      intro acc
      simp only [List.foldl_cons, List.reverse_cons, List.append_assoc,
        List.singleton_append]
      exact (ih (insertDesc hd acc)).trans
        (List.Perm.append_left _ (insertDesc_perm hd acc))

theorem sortByLastSeenDesc_pairwise (l : List KnownFurby) :
    (sortByLastSeenDesc l).Pairwise descLastSeen := by
  suffices h : ∀ acc : List KnownFurby, acc.Pairwise descLastSeen →
      (l.foldl (fun acc f => insertDesc f acc) acc).Pairwise descLastSeen by
    exact h [] List.Pairwise.nil
  induction l with
  | nil => intro acc hacc; simpa using hacc
  | cons hd tl ih =>
      intro acc hacc
      exact ih (insertDesc hd acc) (insertDesc_pairwise hd acc hacc)

theorem sortByLastSeenDesc_eq_nil_iff (l : List KnownFurby) :
    sortByLastSeenDesc l = [] ↔ l = [] := by
  constructor
  · intro h
    have hlen := (sortByLastSeenDesc_perm l).length_eq
    rw [h] at hlen
    have : l.length = 0 := by simpa using hlen.symm
    exact List.length_eq_zero.mp this
  · intro h; subst h; rfl

theorem sortByLastSeenDesc_head_max (l : List KnownFurby) (f : KnownFurby)
    (hf : (sortByLastSeenDesc l).head? = some f) :
    f ∈ l ∧ ∀ g ∈ l, g.last_seen ≤ f.last_seen := by
  have hperm := sortByLastSeenDesc_perm l
  have hpw := sortByLastSeenDesc_pairwise l
  rcases hsort : sortByLastSeenDesc l with _ | ⟨hd, tl⟩
  · rw [hsort] at hf; cases hf
  · rw [hsort] at hf hperm hpw
    simp only [List.head?_cons, Option.some.injEq] at hf
    subst hf
    rcases List.pairwise_cons.mp hpw with ⟨hhd, _⟩
    refine ⟨hperm.mem_iff.mp (List.mem_cons_self hd tl), ?_⟩
    intro g hg
    rcases List.mem_cons.mp (hperm.symm.mem_iff.mp hg) with hg2 | hg2
    · subst hg2; exact Nat.le_refl _
    · exact hhd g hg2

/-! ## The `FurbyCache` state machine

The cache mixes pure data with effects (file I/O, `asyncio` tasks).  We embed
it as explicit state passing: `CacheState` carries the in-memory config, the
debounce bookkeeping (`_save_pending`, `_save_task`), a table of every
`asyncio` task ever created with its status, the cache file contents, whether
an event loop is running, and the abstract clock. -/

/-- Status of an `asyncio` task: `Task.done()` is true for both `done` and
`cancelled`. -/
inductive TaskStatus where
  | pending : TaskStatus
  | done : TaskStatus
  | cancelled : TaskStatus
deriving DecidableEq, Repr

/-- The cache file on disk: missing, present but not decodable as JSON, or
holding a JSON document. -/
inductive FileState where
  | absent : FileState
  | unreadable : FileState
  | content (j : Json) : FileState
deriving Repr

/-- `FurbyCache._load`: missing file → empty config; `json.load` or pydantic
validation failure (`except Exception`) → empty config; otherwise the
validated config. -/
def loadCache (fs : FileState) : KnownFurbiesConfig :=
  match fs with
  | .absent => ⟨[]⟩
  | .unreadable => ⟨[]⟩
  | .content j =>
      match parseConfig j with
      | some c => c
      | none => ⟨[]⟩

structure CacheState where
  config : KnownFurbiesConfig
  savePending : Bool
  saveTask : Option Nat
  tasks : List (Nat × TaskStatus)
  nextId : Nat
  file : FileState
  loopRunning : Bool
  now : Nat

/-- `FurbyCache.__init__`: load the config synchronously, no pending save, no
save task. -/
def initCache (fs : FileState) (loop : Bool) : CacheState :=
  { config := loadCache fs
    savePending := false
    saveTask := none
    tasks := []
    nextId := 0
    file := fs
    loopRunning := loop
    now := 0 }

/-- Status lookup in the task table. -/
def taskStatus (tasks : List (Nat × TaskStatus)) (id : Nat) : Option TaskStatus :=
  match tasks with
  | [] => none
  | (id', st) :: rest => if id' = id then some st else taskStatus rest id

/-- Marks one task with a new status, keeping the table's keys. -/
def setTask : List (Nat × TaskStatus) → Nat → TaskStatus → List (Nat × TaskStatus)
  | [], _, _ => []
  | (k, v) :: rest, id, st =>
      if k = id then (k, st) :: setTask rest id st
      else (k, v) :: setTask rest id st

/-- `FurbyCache._schedule_save`: cancel the current save task when it exists
and is not yet done, then create a fresh delayed-save task and mark a save
pending. -/
def scheduleSave (s : CacheState) : CacheState :=
  let tasks1 :=
    match s.saveTask with
    | some id =>
        if taskStatus s.tasks id = some TaskStatus.pending then setTask s.tasks id .cancelled
        else s.tasks
    | none => s.tasks
  { s with
    tasks := tasks1 ++ [(s.nextId, .pending)]
    saveTask := some s.nextId
    savePending := true
    nextId := s.nextId + 1 }

/-- The body of `delayed_save` running to completion after the debounce delay:
the asynchronous save writes the serialized config and clears the
save-pending flag; the task becomes done.  A cancelled task never reaches the
write (its `CancelledError` is swallowed). -/
def runSaveTask (s : CacheState) : CacheState :=
  match s.saveTask with
  | some id =>
      if taskStatus s.tasks id = some TaskStatus.pending then
        { s with
          file := .content (serializeConfig s.config)
          savePending := false
          tasks := setTask s.tasks id .done }
      else s
  | none => s

/-- `FurbyCache._save`: schedule an asynchronous debounced save when an event
loop is running, otherwise write the file synchronously before returning. -/
def cacheSave (s : CacheState) : CacheState :=
  if s.loopRunning then scheduleSave s
  else { s with file := .content (serializeConfig s.config) }

/-- `FurbyCache.add_or_update`: fetch or create the entry, overwrite exactly
the fields given, refresh `last_seen`, store it back and save. -/
def add_or_update (s : CacheState) (address : String)
    (device_name : Option String) (name : Option String)
    (name_id : Option Nat) (firmware_revision : Option String) : CacheState :=
  let furby :=
    match assocGet s.config.furbies address with
    | some f => f
    | none => ⟨address, s.now, none, none, none, none⟩
  let furby := match device_name with
    | some dn => { furby with device_name := some dn }
    | none => furby
  let furby := match name with
    | some n => { furby with name := some n }
    | none => furby
  let furby := match name_id with
    | some ni => { furby with name_id := some ni }
    | none => furby
  let furby := match firmware_revision with
    | some fr => { furby with firmware_revision := some fr }
    | none => furby
  let furby := { furby with last_seen := s.now }
  cacheSave { s with config := ⟨assocSet s.config.furbies address furby⟩ }

/-- `FurbyCache.remove`: delete the entry and save when present, otherwise do
nothing. -/
def cacheRemove (s : CacheState) (address : String) : CacheState :=
  match assocGet s.config.furbies address with
  | some _ => cacheSave { s with config := ⟨assocRemove s.config.furbies address⟩ }
  | none => s

/-- `FurbyCache.clear`: drop every entry and save. -/
def cacheClear (s : CacheState) : CacheState :=
  cacheSave { s with config := ⟨[]⟩ }

/-- `FurbyCache.update_name`: rename a known entry (refreshing `last_seen`)
and save; unknown addresses are ignored. -/
def update_name (s : CacheState) (address : String) (name : String)
    (name_id : Nat) : CacheState :=
  match assocGet s.config.furbies address with
  | some f =>
      cacheSave
        { s with
          config := ⟨assocSet s.config.furbies address
            { f with name := some name, name_id := some name_id,
                     last_seen := s.now }⟩ }
  | none => s

/-- `FurbyCache.flush`: cancel the pending save task when one exists and is
not done, write the file immediately, clear the save-pending flag. -/
def cacheFlush (s : CacheState) : CacheState :=
  let s1 :=
    match s.saveTask with
    | some id =>
        if taskStatus s.tasks id = some TaskStatus.pending then
          { s with tasks := setTask s.tasks id .cancelled }
        else s
    | none => s
  { s1 with
    file := .content (serializeConfig s1.config)
    savePending := false }

/-- `FurbyCache.get`. -/
def cacheGet (s : CacheState) (address : String) :
    CacheState × Option KnownFurby :=
  (s, assocGet s.config.furbies address)

/-- `FurbyCache.get_all`: the values sorted by `last_seen`, newest first. -/
def get_all (s : CacheState) : CacheState × List KnownFurby :=
  (s, sortByLastSeenDesc (s.config.furbies.map Prod.snd))

/-- `FurbyCache.get_addresses`. -/
def get_addresses (s : CacheState) : CacheState × List String :=
  (s, s.config.furbies.map Prod.fst)

/-- `FurbyCache.get_most_recent`: head of `get_all`, `None` on an empty
cache. -/
def get_most_recent (s : CacheState) : CacheState × Option KnownFurby :=
  (s, (get_all s).2.head?)

/-! ## Debounce invariant

The debouncing claims are about how many `delayed_save` tasks can be pending
at once.  `CacheInv` is the inductive invariant: every pending task in the
table is the one `_save_task` points at, task identifiers are unique and
below the allocation counter. -/

/-- How many tasks of the table are still pending. -/
def pendingCount (tasks : List (Nat × TaskStatus)) : Nat :=
  tasks.countP (fun e => decide (e.2 = TaskStatus.pending))

/-- Inductive invariant of the cache state machine: every pending task is the
one `_save_task` references, identifiers are fresh and unique. -/
def CacheInv (s : CacheState) : Prop :=
  (∀ e ∈ s.tasks, e.2 = TaskStatus.pending → s.saveTask = some e.1) ∧
  (∀ e ∈ s.tasks, e.1 < s.nextId) ∧
  (s.tasks.map Prod.fst).Nodup

instance (s : CacheState) : Decidable (CacheInv s) :=
  inferInstanceAs (Decidable (_ ∧ _ ∧ _))

theorem taskStatus_mem {tasks : List (Nat × TaskStatus)} {id : Nat}
    {st : TaskStatus} (h : taskStatus tasks id = some st) : (id, st) ∈ tasks := by
  induction tasks with
  | nil => cases h
  | cons hd rest ih =>
      obtain ⟨k, v⟩ := hd
      by_cases hk : k = id
      · subst hk
        have h2 : some v = some st := by simpa [taskStatus] using h
        obtain rfl : v = st := by injection h2
        exact List.mem_cons_self _ _
      · simp only [taskStatus, if_neg hk] at h
        exact List.mem_cons_of_mem _ (ih h)

theorem mem_taskStatus {tasks : List (Nat × TaskStatus)} {id : Nat}
    {st : TaskStatus} (hnd : (tasks.map Prod.fst).Nodup)
    (h : (id, st) ∈ tasks) : taskStatus tasks id = some st := by
  induction tasks with
  | nil => cases h
  | cons hd rest ih =>
      obtain ⟨k, v⟩ := hd
      simp only [List.map_cons, List.nodup_cons] at hnd
      rcases List.mem_cons.mp h with h | h
      · obtain ⟨rfl, rfl⟩ := Prod.mk.injEq .. ▸ (Prod.ext_iff.mp h.symm)
        simp [taskStatus]
      · by_cases hk : k = id
        · subst hk
          exact absurd (List.mem_map_of_mem Prod.fst h) hnd.1
        · simp only [taskStatus, if_neg hk]
          exact ih hnd.2 h

theorem taskStatus_none_of_not_mem {tasks : List (Nat × TaskStatus)} {id : Nat}
    (h : id ∉ tasks.map Prod.fst) : taskStatus tasks id = none := by
  induction tasks with
  | nil => rfl
  | cons hd rest ih =>
      obtain ⟨k, v⟩ := hd
      simp only [List.map_cons, List.mem_cons, not_or] at h
      have hk : k ≠ id := fun hkk => h.1 hkk.symm
      simp only [taskStatus, if_neg hk]
      exact ih h.2

theorem taskStatus_append_some {t1 : List (Nat × TaskStatus)}
    (t2 : List (Nat × TaskStatus)) {id : Nat} {st : TaskStatus}
    (h : taskStatus t1 id = some st) : taskStatus (t1 ++ t2) id = some st := by
  induction t1 with
  | nil => cases h
  | cons hd rest ih =>
      obtain ⟨k, v⟩ := hd
      by_cases hk : k = id
      · subst hk
        simp only [taskStatus, if_pos rfl] at h ⊢
        exact h
      · simp only [taskStatus, if_neg hk] at h ⊢
        exact ih h

theorem taskStatus_append_none {t1 : List (Nat × TaskStatus)}
    (t2 : List (Nat × TaskStatus)) {id : Nat}
    (h : taskStatus t1 id = none) : taskStatus (t1 ++ t2) id = taskStatus t2 id := by
  induction t1 with
  | nil => rfl
  | cons hd rest ih =>
      obtain ⟨k, v⟩ := hd
      by_cases hk : k = id
      · subst hk; simp [taskStatus] at h
      · simp only [taskStatus, if_neg hk] at h ⊢
        exact ih h

theorem setTask_map_fst (t : List (Nat × TaskStatus)) (id : Nat)
    (st : TaskStatus) : (setTask t id st).map Prod.fst = t.map Prod.fst := by
  induction t with
  | nil => rfl
  | cons hd rest ih =>
      obtain ⟨k, v⟩ := hd
      by_cases hk : k = id <;> simp [setTask, hk, ih]

theorem taskStatus_setTask_self {t : List (Nat × TaskStatus)} {id : Nat}
    (st : TaskStatus) {st0 : TaskStatus} (h : taskStatus t id = some st0) :
    taskStatus (setTask t id st) id = some st := by
  induction t with
  | nil => cases h
  | cons hd rest ih =>
      obtain ⟨k, v⟩ := hd
      by_cases hk : k = id
      · simp [setTask, taskStatus, hk]
      · simp only [taskStatus, if_neg hk] at h
        simp only [setTask, if_neg hk, taskStatus]
        exact ih h

theorem taskStatus_setTask_ne {t : List (Nat × TaskStatus)} {id j : Nat}
    (st : TaskStatus) (h : j ≠ id) :
    taskStatus (setTask t id st) j = taskStatus t j := by
  induction t with
  | nil => rfl
  | cons hd rest ih =>
      obtain ⟨k, v⟩ := hd
      by_cases hk : k = id
      · subst hk
        have hkj : k ≠ j := fun hh => h hh.symm
        simp only [setTask, if_pos rfl, taskStatus, if_neg hkj]
        exact ih
      · simp only [setTask, if_neg hk, taskStatus]
        by_cases hj : k = j
        · simp [hj]
        · rw [if_neg hj, if_neg hj]
          exact ih

theorem mem_setTask_of_ne {t : List (Nat × TaskStatus)} {id j : Nat}
    {newst st' : TaskStatus} (hne : newst ≠ st')
    (h : (j, st') ∈ setTask t id newst) : (j, st') ∈ t ∧ j ≠ id := by
  induction t with
  | nil => cases h
  | cons hd rest ih =>
      obtain ⟨k, v⟩ := hd
      by_cases hk : k = id
      · subst hk
        simp only [setTask, if_pos rfl] at h
        rcases List.mem_cons.mp h with h | h
        · exact absurd (congrArg Prod.snd h).symm hne
        · obtain ⟨hmem, hne2⟩ := ih h
          exact ⟨List.mem_cons_of_mem _ hmem, hne2⟩
      · simp only [setTask, if_neg hk] at h
        rcases List.mem_cons.mp h with h | h
        · obtain ⟨h1, h2⟩ := Prod.ext_iff.mp h
          subst h1
          subst h2
          exact ⟨List.mem_cons_self _ _, hk⟩
        · obtain ⟨hmem, hne2⟩ := ih h
          exact ⟨List.mem_cons_of_mem _ hmem, hne2⟩

theorem mem_setTask_fst {t : List (Nat × TaskStatus)} {id : Nat}
    {newst : TaskStatus} {e : Nat × TaskStatus} (h : e ∈ setTask t id newst) :
    e.1 ∈ t.map Prod.fst := by
  have h2 : e.1 ∈ (setTask t id newst).map Prod.fst := List.mem_map_of_mem _ h
  rwa [setTask_map_fst] at h2

theorem pendingCount_eq_zero {tasks : List (Nat × TaskStatus)}
    (h : ∀ id st, (id, st) ∈ tasks → st ≠ TaskStatus.pending) :
    pendingCount tasks = 0 := by
  apply List.countP_eq_zero.mpr
  intro e he
  obtain ⟨id, st⟩ := e
  simpa using h id st he

theorem pendingCount_le_one {tasks : List (Nat × TaskStatus)} {o : Option Nat}
    (hnd : (tasks.map Prod.fst).Nodup)
    (h : ∀ id st, (id, st) ∈ tasks → st = TaskStatus.pending → o = some id) :
    pendingCount tasks ≤ 1 := by
  induction tasks with
  | nil => simp [pendingCount]
  | cons hd rest ih =>
      obtain ⟨k, v⟩ := hd
      simp only [List.map_cons, List.nodup_cons] at hnd
      by_cases hv : v = TaskStatus.pending
      · subst hv
        have ho : o = some k := h k _ (List.mem_cons_self _ _) rfl
        have hrest : pendingCount rest = 0 := by
          apply pendingCount_eq_zero
          intro id st hmem hst
          have hkk := h id st (List.mem_cons_of_mem _ hmem) hst
          rw [ho] at hkk
          have hkid : k = id := by injection hkk
          subst hkid
          exact absurd (List.mem_map_of_mem Prod.fst hmem) hnd.1
        have hcons : pendingCount ((k, TaskStatus.pending) :: rest) =
            pendingCount rest + 1 := by
          simp [pendingCount, List.countP_cons]
        rw [hcons, hrest]
      · have : pendingCount ((k, v) :: rest) = pendingCount rest := by
          simp [pendingCount, List.countP_cons, hv]
        rw [this]
        exact ih hnd.2 (fun id st hmem hst => h id st (List.mem_cons_of_mem _ hmem) hst)

theorem key_lt_of_mem_keys {t : List (Nat × TaskStatus)} {x n : Nat}
    (hx : x ∈ t.map Prod.fst) (hb : ∀ e ∈ t, e.1 < n) : x < n := by
  obtain ⟨e, he, rfl⟩ := List.mem_map.mp hx
  exact hb e he

theorem no_pending_of_none {s : CacheState} (hInv : CacheInv s)
    (ho : s.saveTask = none) : ∀ e ∈ s.tasks, e.2 ≠ TaskStatus.pending := by
  intro e he hp
  have := hInv.1 e he hp
  rw [ho] at this
  cases this

theorem no_pending_of_stale {s : CacheState} (hInv : CacheInv s) {i : Nat}
    (ho : s.saveTask = some i)
    (hst : ¬taskStatus s.tasks i = some TaskStatus.pending) :
    ∀ e ∈ s.tasks, e.2 ≠ TaskStatus.pending := by
  intro e he hp
  have h1 := hInv.1 e he hp
  rw [ho] at h1
  have hei : e.1 = i := by injection h1 with h1; exact h1.symm
  apply hst
  have : (i, TaskStatus.pending) ∈ s.tasks := by
    obtain ⟨j, st⟩ := e
    simp only at hei hp
    subst hei
    subst hp
    exact he
  exact mem_taskStatus hInv.2.2 this

theorem no_pending_setTask_cancel {s : CacheState} (hInv : CacheInv s) {i : Nat}
    (ho : s.saveTask = some i) :
    ∀ e ∈ setTask s.tasks i TaskStatus.cancelled, e.2 ≠ TaskStatus.pending := by
  intro e he hp
  obtain ⟨j, st⟩ := e
  simp only at hp
  subst hp
  obtain ⟨hmem, hne⟩ :=
    mem_setTask_of_ne (by simp : TaskStatus.cancelled ≠ TaskStatus.pending) he
  have h1 := hInv.1 _ hmem rfl
  rw [ho] at h1
  exact hne (by injection h1 with h1; exact h1.symm)

theorem scheduleSave_tasks (s : CacheState) :
    (scheduleSave s).tasks =
      (match s.saveTask with
       | some id =>
           if taskStatus s.tasks id = some TaskStatus.pending then
             setTask s.tasks id TaskStatus.cancelled
           else s.tasks
       | none => s.tasks) ++ [(s.nextId, TaskStatus.pending)] := rfl

theorem scheduleSave_inv {s : CacheState} (hInv : CacheInv s) :
    CacheInv (scheduleSave s) := by
  have hkeys1 :
      (match s.saveTask with
       | some id =>
           if taskStatus s.tasks id = some TaskStatus.pending then
             setTask s.tasks id TaskStatus.cancelled
           else s.tasks
       | none => s.tasks).map Prod.fst = s.tasks.map Prod.fst := by
    rcases s.saveTask with _ | i
    · rfl
    · by_cases hc : taskStatus s.tasks i = some TaskStatus.pending
      · simp [hc, setTask_map_fst]
      · simp [hc]
  have hnopend :
      ∀ e ∈ (match s.saveTask with
       | some id =>
           if taskStatus s.tasks id = some TaskStatus.pending then
             setTask s.tasks id TaskStatus.cancelled
           else s.tasks
       | none => s.tasks), e.2 ≠ TaskStatus.pending := by
    rcases ho : s.saveTask with _ | i
    · exact no_pending_of_none hInv ho
    · by_cases hc : taskStatus s.tasks i = some TaskStatus.pending
      · simpa [hc] using no_pending_setTask_cancel hInv ho
      · simpa [hc] using no_pending_of_stale hInv ho hc
  refine ⟨?_, ?_, ?_⟩
  · intro e he hp
    rw [scheduleSave_tasks] at he
    rcases List.mem_append.mp he with he | he
    · exact absurd hp (hnopend e he)
    · rcases List.mem_singleton.mp he with rfl
      rfl
  · intro e he
    rw [scheduleSave_tasks] at he
    show e.1 < s.nextId + 1
    rcases List.mem_append.mp he with he | he
    · have : e.1 ∈ s.tasks.map Prod.fst := by
        rw [← hkeys1]; exact List.mem_map_of_mem Prod.fst he
      exact Nat.lt_succ_of_lt (key_lt_of_mem_keys this hInv.2.1)
    · rcases List.mem_singleton.mp he with rfl
      exact Nat.lt_succ_self _
  · rw [scheduleSave_tasks, List.map_append, hkeys1]
    refine List.Nodup.append hInv.2.2 (List.nodup_singleton _) ?_
    intro x hx hx2
    rcases List.mem_singleton.mp hx2 with rfl
    exact Nat.lt_irrefl _ (key_lt_of_mem_keys hx hInv.2.1)

theorem scheduleSave_cancels {s : CacheState} (hInv : CacheInv s) {id : Nat}
    (hp : taskStatus s.tasks id = some TaskStatus.pending) :
    taskStatus (scheduleSave s).tasks id = some TaskStatus.cancelled ∧
      (scheduleSave s).saveTask ≠ some id := by
  have hmem := taskStatus_mem hp
  have ho := hInv.1 _ hmem rfl
  have hid : id < s.nextId := hInv.2.1 _ hmem
  constructor
  · rw [scheduleSave_tasks, ho]
    show taskStatus
        ((if taskStatus s.tasks id = some TaskStatus.pending then
            setTask s.tasks id TaskStatus.cancelled
          else s.tasks) ++ [(s.nextId, TaskStatus.pending)]) id =
      some TaskStatus.cancelled
    rw [if_pos hp]
    exact taskStatus_append_some _ (taskStatus_setTask_self TaskStatus.cancelled hp)
  · show some s.nextId ≠ some id
    intro h
    have : s.nextId = id := by injection h
    omega

theorem runSaveTask_inv {s : CacheState} (hInv : CacheInv s) :
    CacheInv (runSaveTask s) := by
  rcases ho : s.saveTask with _ | i
  · simpa [runSaveTask, ho] using hInv
  · by_cases hc : taskStatus s.tasks i = some TaskStatus.pending
    · simp only [runSaveTask, ho, if_pos hc]
      refine ⟨?_, ?_, ?_⟩
      · intro e he hp
        obtain ⟨j, st⟩ := e
        simp only at hp
        subst hp
        obtain ⟨hmem, hne⟩ :=
          mem_setTask_of_ne (by simp : TaskStatus.done ≠ TaskStatus.pending) he
        have h1 := hInv.1 _ hmem rfl
        rw [ho] at h1
        exact absurd (by injection h1 with h1; exact h1.symm) hne
      · intro e he
        have : e.1 ∈ s.tasks.map Prod.fst := mem_setTask_fst he
        exact key_lt_of_mem_keys this hInv.2.1
      · rw [setTask_map_fst]
        exact hInv.2.2
    · simpa [runSaveTask, ho, hc] using hInv

theorem cacheInv_of_fields {s s' : CacheState} (ht : s'.tasks = s.tasks)
    (ho : s'.saveTask = s.saveTask) (hn : s'.nextId = s.nextId)
    (hInv : CacheInv s) : CacheInv s' := by
  refine ⟨?_, ?_, ?_⟩
  · rw [ht, ho]; exact hInv.1
  · rw [ht, hn]; exact hInv.2.1
  · rw [ht]; exact hInv.2.2

theorem cacheSave_inv {s : CacheState} (hInv : CacheInv s) :
    CacheInv (cacheSave s) := by
  by_cases hl : s.loopRunning
  · simpa [cacheSave, hl] using scheduleSave_inv hInv
  · simp only [cacheSave, if_neg hl]
    exact cacheInv_of_fields rfl rfl rfl hInv

/-! ## Mutation sequences

A `CacheOp` is one externally triggered event: one of the four mutating cache
methods, or the firing of the scheduled `delayed_save` task after its
debounce delay. -/

inductive CacheOp where
  | addOrUpdate (address : String) (device_name name : Option String)
      (name_id : Option Nat) (firmware_revision : Option String)
  | remove (address : String)
  | clear
  | updateName (address : String) (name : String) (name_id : Nat)
  | saveTaskRuns
deriving Repr

def applyCacheOp (op : CacheOp) (s : CacheState) : CacheState :=
  match op with
  | .addOrUpdate a dn n ni fr => add_or_update s a dn n ni fr
  | .remove a => cacheRemove s a
  | .clear => cacheClear s
  | .updateName a n ni => update_name s a n ni
  | .saveTaskRuns => runSaveTask s

def applyCacheOps (ops : List CacheOp) (s : CacheState) : CacheState :=
  ops.foldl (fun s op => applyCacheOp op s) s

/-- Whether this event reaches `_save` (and hence, with a running loop,
`_schedule_save`): `add_or_update` and `clear` always do, `remove` and
`update_name` only when the address is known. -/
def opSchedulesSave (op : CacheOp) (s : CacheState) : Bool :=
  match op with
  | .addOrUpdate _ _ _ _ _ => true
  | .remove a => (assocGet s.config.furbies a).isSome
  | .clear => true
  | .updateName a _ _ => (assocGet s.config.furbies a).isSome
  | .saveTaskRuns => false

theorem applyCacheOp_inv {s : CacheState} (op : CacheOp) (hInv : CacheInv s) :
    CacheInv (applyCacheOp op s) := by
  cases op with
  | addOrUpdate a dn n ni fr =>
      exact cacheSave_inv (cacheInv_of_fields rfl rfl rfl hInv)
  | remove a =>
      show CacheInv (cacheRemove s a)
      rcases hget : assocGet s.config.furbies a with _ | f
      · simpa [cacheRemove, hget] using hInv
      · simp only [cacheRemove, hget]
        exact cacheSave_inv (cacheInv_of_fields rfl rfl rfl hInv)
  | clear =>
      exact cacheSave_inv (cacheInv_of_fields rfl rfl rfl hInv)
  | updateName a n ni =>
      show CacheInv (update_name s a n ni)
      rcases hget : assocGet s.config.furbies a with _ | f
      · simpa [update_name, hget] using hInv
      · simp only [update_name, hget]
        exact cacheSave_inv (cacheInv_of_fields rfl rfl rfl hInv)
  | saveTaskRuns => exact runSaveTask_inv hInv

theorem initCache_inv (fs : FileState) (loop : Bool) :
    CacheInv (initCache fs loop) := by
  refine ⟨?_, ?_, ?_⟩ <;> simp [initCache]

theorem applyCacheOps_inv (ops : List CacheOp) {s : CacheState}
    (hInv : CacheInv s) : CacheInv (applyCacheOps ops s) := by
  induction ops generalizing s with
  | nil => exact hInv
  | cons op rest ih => exact ih (applyCacheOp_inv op hInv)

theorem cacheInv_pendingCount {s : CacheState} (hInv : CacheInv s) :
    pendingCount s.tasks ≤ 1 :=
  @pendingCount_le_one s.tasks s.saveTask hInv.2.2
    (fun id st hmem hst => hInv.1 (id, st) hmem hst)

theorem cacheSave_cancels {s : CacheState} (hInv : CacheInv s)
    (hl : s.loopRunning = true) {id : Nat}
    (hp : taskStatus s.tasks id = some TaskStatus.pending) :
    taskStatus (cacheSave s).tasks id = some TaskStatus.cancelled ∧
      (cacheSave s).saveTask ≠ some id := by
  have : cacheSave s = scheduleSave s := by simp [cacheSave, hl]
  rw [this]
  exact scheduleSave_cancels hInv hp

theorem cacheFlush_no_pending {s : CacheState} (hInv : CacheInv s) :
    pendingCount (cacheFlush s).tasks = 0 := by
  apply pendingCount_eq_zero
  intro id st hmem
  rcases ho : s.saveTask with _ | i
  · simp only [cacheFlush, ho] at hmem
    exact no_pending_of_none hInv ho (id, st) hmem
  · by_cases hc : taskStatus s.tasks i = some TaskStatus.pending
    · simp only [cacheFlush, ho, if_pos hc] at hmem
      exact no_pending_setTask_cancel hInv ho (id, st) hmem
    · simp only [cacheFlush, ho, if_neg hc] at hmem
      exact no_pending_of_stale hInv ho hc (id, st) hmem

theorem cacheFlush_config (s : CacheState) : (cacheFlush s).config = s.config := by
  rcases ho : s.saveTask with _ | i
  · simp [cacheFlush, ho]
  · by_cases hc : taskStatus s.tasks i = some TaskStatus.pending <;>
      simp [cacheFlush, ho, hc]

theorem cacheFlush_file (s : CacheState) :
    (cacheFlush s).file = .content (serializeConfig s.config) := by
  rcases ho : s.saveTask with _ | i
  · simp [cacheFlush, ho]
  · by_cases hc : taskStatus s.tasks i = some TaskStatus.pending <;>
      simp [cacheFlush, ho, hc]

theorem cacheFlush_savePending (s : CacheState) :
    (cacheFlush s).savePending = false := by
  rcases ho : s.saveTask with _ | i
  · simp [cacheFlush, ho]
  · by_cases hc : taskStatus s.tasks i = some TaskStatus.pending <;>
      simp [cacheFlush, ho, hc]

/-! ## ChunkScheduler (modelled from the spec)

The DLC transfer implementation module (`pyfluff/dlc.py`, `DLCManager`) is not
among the sources here; only its tests and callers are.  The chunk scheduler
is therefore modelled from the specification of `ChunkScheduler` in section
4.2: split the payload into chunks of at most `chunk_size` bytes (last chunk
may be shorter, zero-length payload is a single empty send); in step-ack mode
each chunk write is followed by awaiting a per-chunk acknowledgment before the
next chunk; in streaming mode chunks go back-to-back; after the last chunk the
session waits for the completion signal. -/

/-- Splits a byte list into consecutive chunks of `c` bytes, last one possibly
shorter.  Sensible only for `c > 0`; chunk size 0 yields no chunks. -/
def chunkSplit : Nat → List Nat → List (List Nat)
  | _, [] => []
  | 0, _ :: _ => []
  | c + 1, x :: rest =>
      ((x :: rest).take (c + 1)) :: chunkSplit (c + 1) ((x :: rest).drop (c + 1))
termination_by _ xs => xs.length
decreasing_by
  simp only [List.drop_succ_cons, List.length_drop, List.length_cons]
  omega

/-- Modelled from the spec: the chunk sequence of one upload; a zero-length
payload is a single empty send. -/
def chunkList (payload : List Nat) (c : Nat) : List (List Nat) :=
  if payload.isEmpty then [[]] else chunkSplit c payload

/-- One observable event of an upload session. -/
inductive UploadEv where
  | writeChunk (bytes : List Nat) : UploadEv
  | awaitAck : UploadEv
  | awaitCompletion : UploadEv
deriving DecidableEq, Repr

/-- Modelled from the spec: the send loop; with `ackMode` every chunk write is
followed by one per-chunk acknowledgment wait before the next chunk. -/
def sendChunks (ackMode : Bool) : List (List Nat) → List UploadEv
  | [] => []
  | ch :: rest =>
      if ackMode then .writeChunk ch :: .awaitAck :: sendChunks ackMode rest
      else .writeChunk ch :: sendChunks ackMode rest

/-- Modelled from the spec: a full upload emits the chunk events and then one
completion wait. -/
def uploadTrace (payload : List Nat) (c : Nat) (ackMode : Bool) :
    List UploadEv :=
  sendChunks ackMode (chunkList payload c) ++ [.awaitCompletion]

def isWrite : UploadEv → Bool
  | .writeChunk _ => true
  | _ => false

def isAck : UploadEv → Bool
  | .awaitAck => true
  | _ => false

def countWrites (t : List UploadEv) : Nat := t.countP isWrite

def countAcks (t : List UploadEv) : Nat := t.countP isAck

theorem chunkSplit_length (c : Nat) (xs : List Nat) :
    (chunkSplit (c + 1) xs).length = (xs.length + c) / (c + 1) := by
  suffices h : ∀ n (xs : List Nat), xs.length = n →
      (chunkSplit (c + 1) xs).length = (xs.length + c) / (c + 1) from h _ xs rfl
  intro n
  induction n using Nat.strong_induction_on with
  | _ n ih =>
    intro xs hn
    cases xs with
    | nil =>
        simp only [chunkSplit, List.length_nil]
        exact (Nat.div_eq_of_lt (by omega)).symm
    | cons x rest =>
        simp only [chunkSplit, List.length_cons]
        have hdrop : ((x :: rest).drop (c + 1)).length = rest.length - c := by
          simp only [List.drop_succ_cons, List.length_drop]
        have hlt : ((x :: rest).drop (c + 1)).length < n := by
          rw [← hn]; simp only [List.length_cons]; omega
        rw [ih _ hlt _ rfl, hdrop]
        by_cases hcase : rest.length ≤ c
        · have h1 : rest.length - c = 0 := by omega
          rw [h1]
          have h2 : (0 + c) / (c + 1) = 0 := Nat.div_eq_of_lt (by omega)
          have h3 : (rest.length + 1 + c) / (c + 1) = 1 := by
            apply Nat.div_eq_of_lt_le <;> omega
          omega
        · have h1 : rest.length - c + c = rest.length := by omega
          rw [h1]
          have h2 : rest.length + 1 + c = rest.length + (c + 1) := by omega
          rw [h2, Nat.add_div_right _ (by omega)]

theorem chunkSplit_flatten (c : Nat) (xs : List Nat) :
    (chunkSplit (c + 1) xs).flatten = xs := by
  suffices h : ∀ n (xs : List Nat), xs.length = n →
      (chunkSplit (c + 1) xs).flatten = xs from h _ xs rfl
  intro n
  induction n using Nat.strong_induction_on with
  | _ n ih =>
    intro xs hn
    cases xs with
    | nil => simp [chunkSplit]
    | cons x rest =>
        simp only [chunkSplit, List.flatten_cons]
        have hlt : ((x :: rest).drop (c + 1)).length < n := by
          rw [← hn]
          simp only [List.drop_succ_cons, List.length_drop, List.length_cons]
          omega
        rw [ih _ hlt _ rfl]
        exact List.take_append_drop _ _

theorem chunkSplit_le (c : Nat) (xs : List Nat) :
    ∀ ch ∈ chunkSplit (c + 1) xs, ch.length ≤ c + 1 := by
  suffices h : ∀ n (xs : List Nat), xs.length = n →
      ∀ ch ∈ chunkSplit (c + 1) xs, ch.length ≤ c + 1 from h _ xs rfl
  intro n
  induction n using Nat.strong_induction_on with
  | _ n ih =>
    intro xs hn
    cases xs with
    | nil => intro ch hch; simp [chunkSplit] at hch
    | cons x rest =>
        intro ch hch
        simp only [chunkSplit] at hch
        rcases List.mem_cons.mp hch with hch | hch
        · subst hch
          exact le_of_eq_of_le (by simp) (List.length_take_le (c + 1) (x :: rest))
        · have hlt : ((x :: rest).drop (c + 1)).length < n := by
            rw [← hn]
            simp only [List.drop_succ_cons, List.length_drop, List.length_cons]
            omega
          exact ih _ hlt _ rfl ch hch

theorem chunkSplit_eq_nil_iff (c : Nat) (xs : List Nat) :
    chunkSplit (c + 1) xs = [] ↔ xs = [] := by
  cases xs with
  | nil => simp [chunkSplit]
  | cons x rest => simp [chunkSplit]

theorem chunkSplit_dropLast_full (c : Nat) (xs : List Nat) :
    ∀ ch ∈ (chunkSplit (c + 1) xs).dropLast, ch.length = c + 1 := by
  suffices h : ∀ n (xs : List Nat), xs.length = n →
      ∀ ch ∈ (chunkSplit (c + 1) xs).dropLast, ch.length = c + 1 from h _ xs rfl
  intro n
  induction n using Nat.strong_induction_on with
  | _ n ih =>
    intro xs hn
    cases xs with
    | nil => intro ch hch; simp [chunkSplit] at hch
    | cons x rest =>
        intro ch hch
        simp only [chunkSplit] at hch
        rcases hrec : chunkSplit (c + 1) ((x :: rest).drop (c + 1)) with _ | ⟨c2, cs⟩
        · rw [hrec] at hch
          cases hch
        · rw [hrec] at hch
          rw [List.dropLast_cons₂] at hch
          rcases List.mem_cons.mp hch with hch | hch
          · subst hch
            have hne : (x :: rest).drop (c + 1) ≠ [] := by
              intro hdrop
              rw [hdrop] at hrec
              simp [chunkSplit] at hrec
            have hlen : c + 1 < (x :: rest).length := by
              by_contra hcon
              exact hne (List.drop_eq_nil_of_le (by omega))
            simp only [List.length_take]
            omega
          · have hlt : ((x :: rest).drop (c + 1)).length < n := by
              rw [← hn]
              simp only [List.drop_succ_cons, List.length_drop, List.length_cons]
              omega
            have hrest := ih _ hlt _ rfl ch
            rw [hrec] at hrest
            exact hrest hch

theorem sendChunks_countWrites (ackMode : Bool) (cs : List (List Nat)) :
    countWrites (sendChunks ackMode cs) = cs.length := by
  induction cs with
  | nil => rfl
  | cons ch rest ih =>
      cases ackMode with
      | false =>
          simp only [sendChunks, if_neg (Bool.false_ne_true), countWrites,
            List.countP_cons, List.length_cons] at ih ⊢
          simp [isWrite, ih]
      | true =>
          simp only [sendChunks, if_pos rfl, countWrites, List.countP_cons,
            List.length_cons] at ih ⊢
          simp [isWrite, isAck, ih]

theorem sendChunks_countAcks (ackMode : Bool) (cs : List (List Nat)) :
    countAcks (sendChunks ackMode cs) = if ackMode then cs.length else 0 := by
  induction cs with
  | nil => cases ackMode <;> rfl
  | cons ch rest ih =>
      cases ackMode with
      | false =>
          simp only [sendChunks, if_neg (Bool.false_ne_true), countAcks,
            List.countP_cons, if_neg] at ih ⊢
          simp [isAck, ih]
      | true =>
          simp only [sendChunks, if_pos rfl, countAcks, List.countP_cons,
            List.length_cons] at ih ⊢
          simp [isAck, ih]

theorem countWrites_append (t1 t2 : List UploadEv) :
    countWrites (t1 ++ t2) = countWrites t1 + countWrites t2 :=
  List.countP_append _ _ _

theorem countAcks_append (t1 t2 : List UploadEv) :
    countAcks (t1 ++ t2) = countAcks t1 + countAcks t2 :=
  List.countP_append _ _ _

theorem uploadTrace_countWrites (payload : List Nat) (c : Nat) (ackMode : Bool) :
    countWrites (uploadTrace payload c ackMode) = (chunkList payload c).length := by
  rw [uploadTrace, countWrites_append, sendChunks_countWrites]
  simp [countWrites, List.countP_cons, isWrite]

theorem uploadTrace_countAcks (payload : List Nat) (c : Nat) (ackMode : Bool) :
    countAcks (uploadTrace payload c ackMode) =
      if ackMode then (chunkList payload c).length else 0 := by
  rw [uploadTrace, countAcks_append, sendChunks_countAcks]
  simp [countAcks, List.countP_cons, isAck]

/-- Each chunk write in the trace is immediately followed by an event; this
predicate says that event is a per-chunk acknowledgment wait. -/
def ackAfterEachWrite (t : List UploadEv) : Prop :=
  ∀ i ch, t.get? i = some (.writeChunk ch) → t.get? (i + 1) = some .awaitAck

theorem ackAfterEachWrite_cons2 {t : List UploadEv} (h : ackAfterEachWrite t)
    (ch : List Nat) :
    ackAfterEachWrite (.writeChunk ch :: .awaitAck :: t) := by
  intro i ch' hi
  match i with
  | 0 => rfl
  | 1 => cases hi
  | Nat.succ (Nat.succ j) => exact h j ch' hi

theorem sendChunks_ack_mode (cs : List (List Nat)) (t : List UploadEv)
    (ht : ackAfterEachWrite t) :
    ackAfterEachWrite (sendChunks true cs ++ t) := by
  induction cs with
  | nil => exact ht
  | cons ch rest ih =>
      simp only [sendChunks, if_pos, List.cons_append]
      exact ackAfterEachWrite_cons2 ih ch

theorem awaitCompletion_only : ackAfterEachWrite [.awaitCompletion] := by
  intro i ch hi
  match i with
  | 0 => cases hi
  | Nat.succ j => cases hi

theorem uploadTrace_ack_mode (payload : List Nat) (c : Nat) :
    ackAfterEachWrite (uploadTrace payload c true) :=
  sendChunks_ack_mode _ _ awaitCompletion_only

theorem sendChunks_streaming_writes (cs : List (List Nat)) :
    ∀ e ∈ sendChunks false cs, isWrite e = true := by
  induction cs with
  | nil => intro e he; cases he
  | cons ch rest ih =>
      intro e he
      simp only [sendChunks, if_neg (Bool.false_ne_true)] at he
      rcases List.mem_cons.mp he with he | he
      · subst he; rfl
      · exact ih e he

theorem uploadTrace_streaming (payload : List Nat) (c : Nat) :
    ∀ e ∈ (uploadTrace payload c false).dropLast, isWrite e = true := by
  intro e he
  rw [uploadTrace, List.dropLast_concat] at he
  exact sendChunks_streaming_writes _ e he

theorem uploadTrace_last (payload : List Nat) (c : Nat) (ackMode : Bool) :
    (uploadTrace payload c ackMode).getLast? = some .awaitCompletion := by
  rw [uploadTrace, List.getLast?_concat]

/-! ## SlotRegistry and SlotLifecycleController (modelled from the spec)

The slot registry and lifecycle controller are part of the DLC core whose
implementation module is not among the sources; they are modelled from the
specification: slot states `Empty | Uploading | Uploaded | Active` (shown in
`scripts/create_copilot_dlc.py` as debug codes 0..3), the transfer-session
transitions of section 4.3, and the lifecycle operations of section 4.4. -/

inductive SlotState where
  | Empty : SlotState
  | Uploading : SlotState
  | Uploaded : SlotState
  | Active : SlotState
deriving DecidableEq, Repr

/-- Debug codes of the slot states, as listed in the guide script: 0 empty,
1 upload in progress, 2 uploaded, 3 active and ready to use. -/
def SlotState.code : SlotState → Nat
  | .Empty => 0
  | .Uploading => 1
  | .Uploaded => 2
  | .Active => 3

/-- Number of slots currently claimed `Active`. -/
def countActive (reg : List SlotState) : Nat :=
  reg.countP (fun st => decide (st = SlotState.Active))

/-- Demotes every `Active` slot to `Uploaded` (there is at most one). -/
def demoteActive (reg : List SlotState) : List SlotState :=
  reg.map (fun st => if st = SlotState.Active then SlotState.Uploaded else st)

/-- Modelled from the spec: `activate(slot)` demotes the previously `Active`
slot and then marks the target slot `Active`, once the device confirmed. -/
def activateSlot (reg : List SlotState) (i : Nat) : List SlotState :=
  (demoteActive reg).set i SlotState.Active

/-- The registry snapshots observable during `activate`: before, after the
demotion, after the promotion. -/
def activateTrace (reg : List SlotState) (i : Nat) : List (List SlotState) :=
  [reg, demoteActive reg, activateSlot reg i]

/-- Modelled from the spec: one registry mutation of the transfer session or
the lifecycle controller, each gated on device confirmation. -/
inductive RegStep : List SlotState → List SlotState → Prop where
  | reserve (reg : List SlotState) (i : Nat)
      (h : reg.get? i = some SlotState.Empty) :
      RegStep reg (reg.set i SlotState.Uploading)
  | commit (reg : List SlotState) (i : Nat)
      (h : reg.get? i = some SlotState.Uploading) :
      RegStep reg (reg.set i SlotState.Uploaded)
  | abortRevert (reg : List SlotState) (i : Nat)
      (h : reg.get? i = some SlotState.Uploading) :
      RegStep reg (reg.set i SlotState.Empty)
  | loadSlot (reg : List SlotState) (i : Nat)
      (h : reg.get? i = some SlotState.Uploaded) :
      RegStep reg reg
  | activate (reg : List SlotState) (i : Nat)
      (h : reg.get? i = some SlotState.Uploaded) :
      RegStep reg (activateSlot reg i)
  | deactivate (reg : List SlotState) : RegStep reg (demoteActive reg)
  | delete (reg : List SlotState) (i : Nat)
      (h : reg.get? i ≠ some SlotState.Active) :
      RegStep reg (reg.set i SlotState.Empty)

/-- Registries reachable from the initial all-empty registry of `n` slots. -/
def ReachableReg (n : Nat) (reg : List SlotState) : Prop :=
  Relation.ReflTransGen RegStep (List.replicate n SlotState.Empty) reg

theorem countActive_demote (reg : List SlotState) :
    countActive (demoteActive reg) = 0 := by
  apply List.countP_eq_zero.mpr
  intro st hst
  obtain ⟨st0, _, rfl⟩ := List.mem_map.mp hst
  by_cases h : st0 = SlotState.Active <;> simp [h]

theorem countActive_set_not_active (reg : List SlotState) (i : Nat)
    {st : SlotState} (h : st ≠ SlotState.Active) :
    countActive (reg.set i st) ≤ countActive reg := by
  induction reg generalizing i with
  | nil => simp [countActive]
  | cons hd tl ih =>
      cases i with
      | zero =>
          by_cases h2 : hd = SlotState.Active <;>
            simp [countActive, List.countP_cons, h, h2] <;> omega
      | succ j =>
          simp only [List.set_cons_succ, countActive, List.countP_cons]
          have := ih j
          simp only [countActive] at this
          omega

theorem countActive_set_le_succ (reg : List SlotState) (i : Nat)
    (st : SlotState) :
    countActive (reg.set i st) ≤ countActive reg + 1 := by
  induction reg generalizing i with
  | nil => simp [countActive]
  | cons hd tl ih =>
      cases i with
      | zero =>
          simp only [List.set_cons_zero, countActive, List.countP_cons]
          by_cases h1 : st = SlotState.Active <;>
            by_cases h2 : hd = SlotState.Active <;> simp [h1, h2] <;> omega
      | succ j =>
          simp only [List.set_cons_succ, countActive, List.countP_cons]
          have := ih j
          simp only [countActive] at this
          omega

theorem countActive_replicate_empty (n : Nat) :
    countActive (List.replicate n SlotState.Empty) = 0 := by
  apply List.countP_eq_zero.mpr
  intro st hst
  rw [List.eq_of_mem_replicate hst]
  simp

theorem regStep_preserves {reg reg' : List SlotState} (h : RegStep reg reg')
    (hinv : countActive reg ≤ 1) : countActive reg' ≤ 1 := by
  cases h with
  | reserve i h =>
      exact le_trans (countActive_set_not_active reg i (by simp)) hinv
  | commit i h =>
      exact le_trans (countActive_set_not_active reg i (by simp)) hinv
  | abortRevert i h =>
      exact le_trans (countActive_set_not_active reg i (by simp)) hinv
  | loadSlot i h => exact hinv
  | activate i h =>
      have h1 := countActive_set_le_succ (demoteActive reg) i SlotState.Active
      rw [countActive_demote] at h1
      exact h1
  | deactivate => rw [countActive_demote]; omega
  | delete i h =>
      exact le_trans (countActive_set_not_active reg i (by simp)) hinv

theorem reachable_at_most_one_active {n : Nat} {reg : List SlotState}
    (h : ReachableReg n reg) : countActive reg ≤ 1 := by
  induction h with
  | refl => rw [countActive_replicate_empty]; omega
  | tail _ step ih => exact regStep_preserves step ih

theorem get?_set_self (l : List SlotState) (i : Nat) (st : SlotState)
    (h : i < l.length) : (l.set i st).get? i = some st := by
  induction l generalizing i with
  | nil => simp at h
  | cons hd tl ih =>
      cases i with
      | zero => rfl
      | succ j =>
          simp only [List.set_cons_succ, List.get?_cons_succ]
          exact ih j (by simpa using h)

theorem get?_set_ne (l : List SlotState) (i j : Nat) (st : SlotState)
    (h : j ≠ i) : (l.set i st).get? j = l.get? j := by
  induction l generalizing i j with
  | nil => simp
  | cons hd tl ih =>
      cases i with
      | zero =>
          cases j with
          | zero => exact absurd rfl h
          | succ k => rfl
      | succ i2 =>
          cases j with
          | zero => rfl
          | succ k =>
              simp only [List.set_cons_succ, List.get?_cons_succ]
              exact ih i2 k (fun hk => h (by rw [hk]))

theorem get?_demote (reg : List SlotState) (j : Nat) :
    (demoteActive reg).get? j =
      (reg.get? j).map
        (fun st => if st = SlotState.Active then SlotState.Uploaded else st) :=
  List.get?_map _ _ _

theorem activateSlot_get_self {reg : List SlotState} {i : Nat}
    (h : reg.get? i = some SlotState.Uploaded) :
    (activateSlot reg i).get? i = some SlotState.Active := by
  have hi : i < reg.length := List.get?_eq_some.mp h |>.1
  have : i < (demoteActive reg).length := by
    simpa [demoteActive] using hi
  exact get?_set_self _ i _ this

theorem activateSlot_demotes {reg : List SlotState} {i j : Nat} (hne : j ≠ i)
    (h : reg.get? j = some SlotState.Active) :
    (activateSlot reg i).get? j = some SlotState.Uploaded := by
  rw [activateSlot, get?_set_ne _ _ _ _ hne, get?_demote, h]
  rfl

/-! ## The `HomeAssistantMQTT` bridge (`pyfluff/homeassistant.py`)

Methods are embedded as functions from the object state to (new state,
published messages).  The MQTT client handle and the subscription task carry
no observable data and are modelled as `Option Unit`; the command callback is
identified abstractly by a number. -/

structure HomeAssistantMQTT where
  broker : String
  port : Nat
  username : Option String
  password : Option String
  device_id : String
  device_name : String
  client : Option Unit
  running : Bool
  subscribe_task : Option Unit
  discovery_prefix : String
  base_topic : String
  command_callback : Option Nat
deriving DecidableEq, Repr

/-- `HomeAssistantMQTT.__init__`. -/
def mkHomeAssistantMQTT (broker : String) (port : Nat)
    (username password : Option String) (device_id device_name : String) :
    HomeAssistantMQTT :=
  { broker := broker
    port := port
    username := username
    password := password
    device_id := device_id
    device_name := device_name
    client := none
    running := false
    subscribe_task := none
    discovery_prefix := "homeassistant"
    base_topic := "pyfluff/" ++ device_id
    command_callback := none }

/-- A published MQTT message: topic, payload (a plain string or a JSON
document run through `json.dumps`), retain flag. -/
structure MqttMsg where
  topic : String
  payload_text : Option String
  payload_json : Option Json
  retain : Bool
deriving Repr

/-- Shorthand for a plain-text publish without retain. -/
def textMsg (topic payload : String) : MqttMsg :=
  ⟨topic, some payload, none, false⟩

/-- Shorthand for a retained JSON discovery publish. -/
def jsonMsg (topic : String) (j : Json) : MqttMsg :=
  ⟨topic, none, some j, true⟩

/-- `HomeAssistantMQTT._get_device_info`. -/
def getDeviceInfo (s : HomeAssistantMQTT) (mac : Option String) : Json :=
  .obj
    ([("identifiers", .arr [.str s.device_id]),
      ("name", .str s.device_name),
      ("manufacturer", .str "Hasbro"),
      ("model", .str "Furby Connect"),
      ("sw_version", .str "1.0.0")] ++
      (match mac with
       | some m => [("connections", .arr [.arr [.str "mac", .str m]])]
       | none => []))

/-- `HomeAssistantMQTT._publish_light_discovery`. -/
def publishLightDiscovery (s : HomeAssistantMQTT) (device_info : Json) :
    List MqttMsg :=
  match s.client with
  | none => []
  | some _ =>
      [jsonMsg (s.discovery_prefix ++ "/light/" ++ s.device_id ++ "/antenna/config")
        (.obj
          [("name", .str "Antenna LED"),
           ("unique_id", .str (s.device_id ++ "_antenna_led")),
           ("device", device_info),
           ("command_topic", .str (s.base_topic ++ "/antenna/set")),
           ("state_topic", .str (s.base_topic ++ "/antenna/state")),
           ("rgb_command_topic", .str (s.base_topic ++ "/antenna/rgb/set")),
           ("rgb_state_topic", .str (s.base_topic ++ "/antenna/rgb/state")),
           ("rgb_command_template",
            .str "\x7b\x7b red \x7d\x7d,\x7b\x7b green \x7d\x7d,\x7b\x7b blue \x7d\x7d"),
           ("rgb_value_template", .str "\x7b\x7b value \x7d\x7d"),
           ("optimistic", .boolean false),
           ("qos", .num 1)])]

/-- `HomeAssistantMQTT._publish_connection_sensor_discovery`. -/
def publishConnectionSensorDiscovery (s : HomeAssistantMQTT)
    (device_info : Json) : List MqttMsg :=
  match s.client with
  | none => []
  | some _ =>
      [jsonMsg
        (s.discovery_prefix ++ "/binary_sensor/" ++ s.device_id ++
          "/connection/config")
        (.obj
          [("name", .str "Connection"),
           ("unique_id", .str (s.device_id ++ "_connection")),
           ("device", device_info),
           ("state_topic", .str (s.base_topic ++ "/connection/state")),
           ("icon", .str "mdi:bluetooth"),
           ("qos", .num 1)])]

/-- The five mood meters exposed as number inputs. -/
def moodsList : List (String × String × String) :=
  [("excitedness", "Excitedness", "mdi:emoticon-happy"),
   ("displeasedness", "Displeasedness", "mdi:emoticon-sad"),
   ("tiredness", "Tiredness", "mdi:sleep"),
   ("fullness", "Fullness", "mdi:food"),
   ("wellness", "Wellness", "mdi:heart-pulse")]

/-- `HomeAssistantMQTT._publish_mood_discovery`. -/
def publishMoodDiscovery (s : HomeAssistantMQTT) (device_info : Json) :
    List MqttMsg :=
  match s.client with
  | none => []
  | some _ =>
      moodsList.map (fun m =>
        jsonMsg
          (s.discovery_prefix ++ "/number/" ++ s.device_id ++ "/" ++ m.1 ++
            "/config")
          (.obj
            [("name", .str m.2.1),
             ("unique_id", .str (s.device_id ++ "_" ++ m.1)),
             ("device", device_info),
             ("command_topic", .str (s.base_topic ++ "/mood/" ++ m.1 ++ "/set")),
             ("state_topic", .str (s.base_topic ++ "/mood/" ++ m.1 ++ "/state")),
             ("min", .num 0),
             ("max", .num 100),
             ("step", .num 1),
             ("mode", .str "slider"),
             ("icon", .str m.2.2),
             ("qos", .num 1)]))

/-- The four action buttons. -/
def buttonsList : List (String × String × String) :=
  [("giggle", "Giggle", "mdi:emoticon-lol"),
   ("puke", "Puke", "mdi:emoticon-sick"),
   ("lcd_on", "LCD On", "mdi:eye"),
   ("lcd_off", "LCD Off", "mdi:eye-off")]

/-- `HomeAssistantMQTT._publish_action_buttons_discovery`. -/
def publishActionButtonsDiscovery (s : HomeAssistantMQTT)
    (device_info : Json) : List MqttMsg :=
  match s.client with
  | none => []
  | some _ =>
      buttonsList.map (fun b =>
        jsonMsg
          (s.discovery_prefix ++ "/button/" ++ s.device_id ++ "/" ++ b.1 ++
            "/config")
          (.obj
            [("name", .str b.2.1),
             ("unique_id", .str (s.device_id ++ "_" ++ b.1)),
             ("device", device_info),
             ("command_topic",
              .str (s.base_topic ++ "/button/" ++ b.1 ++ "/press")),
             ("icon", .str b.2.2),
             ("qos", .num 1),
             ("payload_press", .str "PRESS")]))

/-- `HomeAssistantMQTT.publish_discovery`: raises `RuntimeError` when not
connected, otherwise publishes all entity discovery messages. -/
def publish_discovery (s : HomeAssistantMQTT) (mac : Option String) :
    Except String (HomeAssistantMQTT × List MqttMsg) :=
  match s.client with
  | none => .error "Not connected to MQTT broker"
  | some _ =>
      let device_info := getDeviceInfo s mac
      .ok (s,
        publishLightDiscovery s device_info ++
        publishConnectionSensorDiscovery s device_info ++
        publishMoodDiscovery s device_info ++
        publishActionButtonsDiscovery s device_info)

/-- `HomeAssistantMQTT.publish_antenna_state`: silent no-op when not
connected. -/
def publish_antenna_state (s : HomeAssistantMQTT) (red green blue : Nat)
    (ledOn : Bool) : HomeAssistantMQTT × List MqttMsg :=
  match s.client with
  | none => (s, [])
  | some _ =>
      let state := if ledOn then "ON" else "OFF"
      let rgb := toString red ++ "," ++ toString green ++ "," ++ toString blue
      (s, [textMsg (s.base_topic ++ "/antenna/state") state,
           textMsg (s.base_topic ++ "/antenna/rgb/state") rgb])

/-- `HomeAssistantMQTT.publish_connection_state`: silent no-op when not
connected. -/
def publish_connection_state (s : HomeAssistantMQTT) (connected : Bool) :
    HomeAssistantMQTT × List MqttMsg :=
  match s.client with
  | none => (s, [])
  | some _ =>
      (s, [textMsg (s.base_topic ++ "/connection/state")
            (if connected then "ON" else "OFF")])

/-- `HomeAssistantMQTT.publish_mood_state`: silent no-op when not
connected. -/
def publish_mood_state (s : HomeAssistantMQTT) (mood_type : String)
    (value : Nat) : HomeAssistantMQTT × List MqttMsg :=
  match s.client with
  | none => (s, [])
  | some _ =>
      (s, [textMsg (s.base_topic ++ "/mood/" ++ mood_type ++ "/state")
            (toString value)])

/-- `HomeAssistantMQTT.subscribe_to_commands`: raises `RuntimeError` when not
connected, otherwise stores the callback, subscribes to the four command
topics and starts the handler task. -/
def subscribe_to_commands (s : HomeAssistantMQTT) (cb : Nat) :
    Except String (HomeAssistantMQTT × List String) :=
  match s.client with
  | none => .error "Not connected to MQTT broker"
  | some _ =>
      .ok ({ s with command_callback := some cb, subscribe_task := some () },
        [s.base_topic ++ "/antenna/set",
         s.base_topic ++ "/antenna/rgb/set",
         s.base_topic ++ "/mood/+/set",
         s.base_topic ++ "/button/+/press"])

/-! ## SlotLifecycleController operations (modelled from the spec) -/

inductive LifecycleOp where
  | load : LifecycleOp
  | activate : LifecycleOp
  | deactivate : LifecycleOp
  | delete : LifecycleOp
deriving DecidableEq, Repr

inductive TransferError where
  | InvalidSlot : TransferError
  | PayloadTooLarge : TransferError
  | SlotBusy : TransferError
  | SlotInUse : TransferError
  | NotReady : TransferError
  | CompletionTimeout : TransferError
  | Unacknowledged (op : LifecycleOp) : TransferError
  | ChunkFailed (offset : Nat) : TransferError
deriving DecidableEq, Repr

/-- Modelled from the spec: the validation each lifecycle operation performs
before any device I/O (section 4.4): `load`/`activate` require the slot to be
`Uploaded`, `deactivate` has no requirement, `delete` rejects the `Active`
slot with `SlotInUse`. -/
def lifecycleValidate (op : LifecycleOp) (i : Nat) (reg : List SlotState) :
    Option TransferError :=
  match op with
  | .load =>
      if reg.get? i = some SlotState.Uploaded then none else some .InvalidSlot
  | .activate =>
      if reg.get? i = some SlotState.Uploaded then none else some .InvalidSlot
  | .deactivate => none
  | .delete =>
      match reg.get? i with
      | some SlotState.Active => some .SlotInUse
      | some _ => none
      | none => some .InvalidSlot

/-- Modelled from the spec: the registry mutation each operation commits after
the device acknowledged. -/
def lifecycleApply (op : LifecycleOp) (i : Nat) (reg : List SlotState) :
    List SlotState :=
  match op with
  | .load => reg
  | .activate => activateSlot reg i
  | .deactivate => demoteActive reg
  | .delete => reg.set i SlotState.Empty

/-- Modelled from the spec: one lifecycle operation end to end.  After
validation the controller sends the command and waits, with a bounded
timeout, for the device acknowledgment; `ackArrived` abstracts whether the
acknowledgment arrived within that timeout.  The registry is mutated only
after the acknowledgment. -/
def lifecycleRun (op : LifecycleOp) (i : Nat) (reg : List SlotState)
    (ackArrived : Bool) : List SlotState × Except TransferError Unit :=
  match lifecycleValidate op i reg with
  | some e => (reg, .error e)
  | none =>
      if ackArrived then (lifecycleApply op i reg, .ok ())
      else (reg, .error (.Unacknowledged op))

/-! ## The claims -/

/-- C1: for every payload and chunk size > 0 the upload splits the payload
into exactly ceil(size / chunk_size) chunks (a zero-length payload is one
single empty send), each chunk at most chunk_size bytes with only the last
possibly shorter, and the chunks concatenate back to the payload; in step-ack
mode exactly one per-chunk acknowledgment is awaited directly after each
chunk, before the next chunk and before the completion wait; streaming mode
sends the same chunk count back-to-back with no intervening waits; 1600 bytes
at chunk size 200 in streaming mode yield exactly 8 chunk writes, no ack
waits, and then one completion wait. -/
theorem C1_chunk_scheduler (payload : List Nat) (c : Nat) (hc : 0 < c) :
    ((payload ≠ [] →
        (chunkList payload c).length = (payload.length + c - 1) / c) ∧
      (payload = [] → chunkList payload c = [[]]) ∧
      (chunkList payload c).flatten = payload ∧
      (∀ ch ∈ chunkList payload c, ch.length ≤ c) ∧
      (∀ ch ∈ (chunkList payload c).dropLast, ch.length = c)) ∧
    (countWrites (uploadTrace payload c true) = (chunkList payload c).length ∧
      countAcks (uploadTrace payload c true) = (chunkList payload c).length ∧
      ackAfterEachWrite (uploadTrace payload c true) ∧
      (uploadTrace payload c true).getLast? = some .awaitCompletion) ∧
    (countWrites (uploadTrace payload c false) = (chunkList payload c).length ∧
      countAcks (uploadTrace payload c false) = 0 ∧
      (∀ e ∈ (uploadTrace payload c false).dropLast, isWrite e = true) ∧
      (uploadTrace payload c false).getLast? = some .awaitCompletion) ∧
    (countWrites (uploadTrace (List.replicate 1600 0) 200 false) = 8 ∧
      countAcks (uploadTrace (List.replicate 1600 0) 200 false) = 0 ∧
      (uploadTrace (List.replicate 1600 0) 200 false).getLast? =
        some .awaitCompletion) := by
  obtain ⟨c2, rfl⟩ : ∃ c2, c = c2 + 1 := ⟨c - 1, by omega⟩
  refine ⟨⟨?_, ?_, ?_, ?_, ?_⟩, ⟨?_, ?_, ?_, ?_⟩, ⟨?_, ?_, ?_, ?_⟩, ⟨?_, ?_, ?_⟩⟩
  · intro hne
    have hemp : payload.isEmpty = false := by
      cases payload with
      | nil => exact absurd rfl hne
      | cons x rest => rfl
    rw [chunkList, hemp, if_neg (Bool.false_ne_true), chunkSplit_length]
    congr 1
  · intro h
    subst h
    rfl
  · cases hp : payload with
    | nil => simp [chunkList]
    | cons x rest =>
        rw [← hp, chunkList]
        have hemp : payload.isEmpty = false := by rw [hp]; rfl
        rw [hemp, if_neg (Bool.false_ne_true)]
        exact chunkSplit_flatten c2 payload
  · intro ch hch
    cases hp : payload with
    | nil =>
        subst hp
        simp only [chunkList, List.isEmpty_nil, if_pos] at hch
        rcases List.mem_singleton.mp hch with rfl
        simp
    | cons x rest =>
        rw [hp, chunkList] at hch
        simp only [List.isEmpty_cons, Bool.false_eq_true, if_false] at hch
        exact chunkSplit_le c2 (x :: rest) ch hch
  · intro ch hch
    cases hp : payload with
    | nil =>
        subst hp
        simp only [chunkList, List.isEmpty_nil, if_pos] at hch
        cases hch
    | cons x rest =>
        rw [hp, chunkList] at hch
        simp only [List.isEmpty_cons, Bool.false_eq_true, if_false] at hch
        exact chunkSplit_dropLast_full c2 (x :: rest) ch hch
  · exact uploadTrace_countWrites payload (c2 + 1) true
  · rw [uploadTrace_countAcks]; rfl
  · exact uploadTrace_ack_mode payload (c2 + 1)
  · exact uploadTrace_last payload (c2 + 1) true
  · exact uploadTrace_countWrites payload (c2 + 1) false
  · rw [uploadTrace_countAcks]; rfl
  · exact uploadTrace_streaming payload (c2 + 1)
  · exact uploadTrace_last payload (c2 + 1) false
  · rw [uploadTrace_countWrites]
    have hemp : (List.replicate 1600 (0 : Nat)).isEmpty = false := rfl
    rw [chunkList, hemp, if_neg (Bool.false_ne_true)]
    have h200 : (200 : Nat) = 199 + 1 := rfl
    rw [h200, chunkSplit_length, List.length_replicate]
  · rw [uploadTrace_countAcks]; rfl
  · exact uploadTrace_last _ 200 false

/-- C1 witness: the theorem at payload `[1, 2, 3]` with chunk size 2. -/
theorem C1_chunk_scheduler_witness :
    0 < 2 ∧
      countWrites (uploadTrace [1, 2, 3] 2 false) = (chunkList [1, 2, 3] 2).length ∧
      countAcks (uploadTrace [1, 2, 3] 2 true) = (chunkList [1, 2, 3] 2).length :=
  ⟨by decide, (C1_chunk_scheduler [1, 2, 3] 2 (by decide)).2.2.1.1,
    (C1_chunk_scheduler [1, 2, 3] 2 (by decide)).2.1.2.1⟩

/-- C2: in every reachable registry at most one slot is `Active`; activating
an `Uploaded` slot of a registry satisfying the invariant keeps every
observable snapshot (before, after the demotion, after the promotion) at not
more than one `Active` slot, ends with the target slot `Active`, and demotes
every other previously `Active` slot to `Uploaded`. -/
theorem C2_active_mutual_exclusion :
    (∀ (n : Nat) (reg : List SlotState),
        ReachableReg n reg → countActive reg ≤ 1) ∧
    (∀ (reg : List SlotState) (i : Nat), countActive reg ≤ 1 →
        reg.get? i = some SlotState.Uploaded →
        (∀ snapshot ∈ activateTrace reg i, countActive snapshot ≤ 1) ∧
        (activateSlot reg i).get? i = some SlotState.Active ∧
        (∀ j, j ≠ i → reg.get? j = some SlotState.Active →
            (activateSlot reg i).get? j = some SlotState.Uploaded)) := by
  constructor
  · intro n reg h
    exact reachable_at_most_one_active h
  · intro reg i hinv hup
    refine ⟨?_, activateSlot_get_self hup, ?_⟩
    · intro snapshot hs
      simp only [activateTrace, List.mem_cons, List.mem_singleton,
        List.not_mem_nil, or_false] at hs
      rcases hs with rfl | rfl | rfl
      · exact hinv
      · rw [countActive_demote]; omega
      · have h1 := countActive_set_le_succ (demoteActive reg) i SlotState.Active
        rw [countActive_demote] at h1
        exact h1
    · intro j hne hact
      exact activateSlot_demotes hne hact

/-- C2 witness: the registry `[Empty, Active, Uploaded]` is reachable in five
steps, satisfies the invariant, and activating slot 2 makes it `Active`. -/
theorem C2_active_mutual_exclusion_witness :
    ReachableReg 3 [SlotState.Empty, SlotState.Active, SlotState.Uploaded] ∧
    countActive [SlotState.Empty, SlotState.Active, SlotState.Uploaded] ≤ 1 ∧
    (activateSlot [SlotState.Empty, SlotState.Active, SlotState.Uploaded]
        2).get? 2 = some SlotState.Active := by
  have t1 : RegStep (List.replicate 3 SlotState.Empty)
      [SlotState.Empty, SlotState.Uploading, SlotState.Empty] :=
    RegStep.reserve (List.replicate 3 SlotState.Empty) 1 rfl
  have t2 : RegStep [SlotState.Empty, SlotState.Uploading, SlotState.Empty]
      [SlotState.Empty, SlotState.Uploaded, SlotState.Empty] :=
    RegStep.commit _ 1 rfl
  have t3 : RegStep [SlotState.Empty, SlotState.Uploaded, SlotState.Empty]
      [SlotState.Empty, SlotState.Active, SlotState.Empty] :=
    RegStep.activate _ 1 rfl
  have t4 : RegStep [SlotState.Empty, SlotState.Active, SlotState.Empty]
      [SlotState.Empty, SlotState.Active, SlotState.Uploading] :=
    RegStep.reserve _ 2 rfl
  have t5 : RegStep [SlotState.Empty, SlotState.Active, SlotState.Uploading]
      [SlotState.Empty, SlotState.Active, SlotState.Uploaded] :=
    RegStep.commit _ 2 rfl
  have hreach : ReachableReg 3
      [SlotState.Empty, SlotState.Active, SlotState.Uploaded] :=
    Relation.ReflTransGen.head t1 (Relation.ReflTransGen.head t2
      (Relation.ReflTransGen.head t3 (Relation.ReflTransGen.head t4
        (Relation.ReflTransGen.head t5 Relation.ReflTransGen.refl))))
  refine ⟨hreach, C2_active_mutual_exclusion.1 3 _ hreach, ?_⟩
  exact (C2_active_mutual_exclusion.2 _ 2
    (C2_active_mutual_exclusion.1 3 _ hreach) rfl).2.1

/-- C3: a lifecycle operation that passes validation but receives no device
acknowledgment within its timeout reports `Unacknowledged{operation}` and
leaves the registry exactly as it was (no optimistic mutation). -/
theorem C3_unacknowledged_leaves_registry (op : LifecycleOp) (i : Nat)
    (reg : List SlotState) (hval : lifecycleValidate op i reg = none) :
    lifecycleRun op i reg false =
      (reg, .error (.Unacknowledged op)) := by
  simp [lifecycleRun, hval]

/-- C3 witness: activating slot 0 of `[Uploaded]` without an acknowledgment. -/
theorem C3_unacknowledged_leaves_registry_witness :
    lifecycleValidate .activate 0 [SlotState.Uploaded] = none ∧
    lifecycleRun .activate 0 [SlotState.Uploaded] false =
      ([SlotState.Uploaded], .error (.Unacknowledged .activate)) :=
  ⟨rfl, C3_unacknowledged_leaves_registry .activate 0 [SlotState.Uploaded] rfl⟩

theorem loadCache_serialized (c : KnownFurbiesConfig) :
    loadCache (.content (serializeConfig c)) = c := by
  simp [loadCache, parseConfig_serializeConfig]

theorem cacheSave_sync_full {s : CacheState} (hl : s.loopRunning = false) :
    (cacheSave s).file = .content (serializeConfig (cacheSave s).config) ∧
    loadCache (cacheSave s).file = (cacheSave s).config := by
  have h1 : cacheSave s = { s with file := .content (serializeConfig s.config) } := by
    simp [cacheSave, hl]
  rw [h1]
  exact ⟨rfl, loadCache_serialized s.config⟩

theorem cacheSave_cancels_of_fields {s s' : CacheState}
    (ht : s'.tasks = s.tasks) (ho : s'.saveTask = s.saveTask)
    (hn : s'.nextId = s.nextId) (hl2 : s'.loopRunning = s.loopRunning)
    (hInv : CacheInv s) (hl : s.loopRunning = true) {id : Nat}
    (hp : taskStatus s.tasks id = some TaskStatus.pending) :
    taskStatus (cacheSave s').tasks id = some TaskStatus.cancelled ∧
      (cacheSave s').saveTask ≠ some id := by
  have hInv2 : CacheInv s' := cacheInv_of_fields ht ho hn hInv
  have hp2 : taskStatus s'.tasks id = some TaskStatus.pending := by
    rw [ht]; exact hp
  have hl3 : s'.loopRunning = true := by rw [hl2]; exact hl
  exact cacheSave_cancels hInv2 hl3 hp2

/-- Concrete states used by witnesses. -/
def sampleCacheState : CacheState :=
  { config := ⟨[("AA", KnownFurby.mk "AA" 5 none none none none)]⟩
    savePending := false
    saveTask := none
    tasks := []
    nextId := 0
    file := FileState.absent
    loopRunning := true
    now := 0 }

def debounceSample : CacheState :=
  applyCacheOps [CacheOp.addOrUpdate "AA" none none none none]
    (initCache FileState.absent true)

/-- C4: while an event loop runs, every mutating cache operation cancels a
previously scheduled, not yet completed delayed save task before scheduling a
fresh one, so along any sequence of mutations (and task completions) at most
one delayed save task is pending. -/
theorem C4_debounced_single_pending :
    (∀ (fs : FileState) (ops : List CacheOp),
        pendingCount (applyCacheOps ops (initCache fs true)).tasks ≤ 1) ∧
    (∀ (s : CacheState) (op : CacheOp) (id : Nat),
        CacheInv s → s.loopRunning = true → opSchedulesSave op s = true →
        taskStatus s.tasks id = some TaskStatus.pending →
        taskStatus (applyCacheOp op s).tasks id = some TaskStatus.cancelled ∧
        (applyCacheOp op s).saveTask ≠ some id) := by
  constructor
  · intro fs ops
    exact cacheInv_pendingCount (applyCacheOps_inv ops (initCache_inv fs true))
  · intro s op id hInv hl hsave hp
    cases op with
    | addOrUpdate a dn n ni fr =>
        refine cacheSave_cancels_of_fields ?_ ?_ ?_ ?_ hInv hl hp <;> rfl
    | remove a =>
        rcases hget : assocGet s.config.furbies a with _ | f
        · simp [opSchedulesSave, hget] at hsave
        · have heq : applyCacheOp (CacheOp.remove a) s =
              cacheSave { s with config := ⟨assocRemove s.config.furbies a⟩ } := by
            simp [applyCacheOp, cacheRemove, hget]
          rw [heq]
          refine cacheSave_cancels_of_fields ?_ ?_ ?_ ?_ hInv hl hp <;> rfl
    | clear =>
        refine cacheSave_cancels_of_fields ?_ ?_ ?_ ?_ hInv hl hp <;> rfl
    | updateName a n ni =>
        rcases hget : assocGet s.config.furbies a with _ | f
        · simp [opSchedulesSave, hget] at hsave
        · have heq : applyCacheOp (CacheOp.updateName a n ni) s =
              cacheSave { s with config := ⟨assocSet s.config.furbies a
                { f with name := some n, name_id := some ni,
                         last_seen := s.now }⟩ } := by
            simp [applyCacheOp, update_name, hget]
          rw [heq]
          refine cacheSave_cancels_of_fields ?_ ?_ ?_ ?_ hInv hl hp <;> rfl
    | saveTaskRuns => simp [opSchedulesSave] at hsave

/-- C4 witness: after one `add_or_update` the save task 0 is pending; a
`clear` cancels it and schedules a different one. -/
theorem C4_debounced_single_pending_witness :
    CacheInv debounceSample ∧ debounceSample.loopRunning = true ∧
    opSchedulesSave CacheOp.clear debounceSample = true ∧
    taskStatus debounceSample.tasks 0 = some TaskStatus.pending ∧
    taskStatus (applyCacheOp CacheOp.clear debounceSample).tasks 0 =
      some TaskStatus.cancelled ∧
    (applyCacheOp CacheOp.clear debounceSample).saveTask ≠ some 0 := by
  have h : CacheInv debounceSample := by decide
  have h2 := C4_debounced_single_pending.2 debounceSample CacheOp.clear 0 h rfl
    rfl (by decide)
  exact ⟨h, rfl, rfl, by decide, h2.1, h2.2⟩

/-- C5: `flush` cancels any pending delayed save task, writes the current
in-memory config immediately, clears the save-pending flag, and does all of
this whether or not a delayed task was ever scheduled. -/
theorem C5_flush_immediate (s : CacheState) (hInv : CacheInv s) :
    (cacheFlush s).file = .content (serializeConfig s.config) ∧
    (cacheFlush s).savePending = false ∧
    pendingCount (cacheFlush s).tasks = 0 ∧
    (cacheFlush s).config = s.config :=
  ⟨cacheFlush_file s, cacheFlush_savePending s, cacheFlush_no_pending hInv,
    cacheFlush_config s⟩

/-- C5 witness: flushing a fresh cache with no scheduled task. -/
theorem C5_flush_immediate_witness :
    CacheInv (initCache FileState.absent false) ∧
    pendingCount (cacheFlush (initCache FileState.absent false)).tasks = 0 ∧
    (cacheFlush (initCache FileState.absent false)).savePending = false := by
  have h : CacheInv (initCache FileState.absent false) := by decide
  exact ⟨h, (C5_flush_immediate _ h).2.2.1, (C5_flush_immediate _ h).2.1⟩

/-- C6: the persisted JSON round-trips (validation of a serialized config
reconstructs it, so a cache constructed from the written file equals the one
saved), the firing delayed save writes exactly the serialized in-memory
config, and with no event loop every mutating operation writes that same JSON
synchronously before returning. -/
theorem C6_persistence_roundtrip :
    (∀ c : KnownFurbiesConfig, parseConfig (serializeConfig c) = some c) ∧
    (∀ c : KnownFurbiesConfig, loadCache (.content (serializeConfig c)) = c) ∧
    (∀ (s : CacheState) (id : Nat), s.saveTask = some id →
        taskStatus s.tasks id = some TaskStatus.pending →
        (runSaveTask s).file =
          .content (serializeConfig (runSaveTask s).config) ∧
        loadCache (runSaveTask s).file = (runSaveTask s).config) ∧
    (∀ (s : CacheState) (op : CacheOp), s.loopRunning = false →
        opSchedulesSave op s = true →
        (applyCacheOp op s).file =
          .content (serializeConfig (applyCacheOp op s).config) ∧
        loadCache (applyCacheOp op s).file = (applyCacheOp op s).config) := by
  refine ⟨parseConfig_serializeConfig, loadCache_serialized, ?_, ?_⟩
  · intro s id ho hc
    have h1 : runSaveTask s =
        { s with file := .content (serializeConfig s.config),
                 savePending := false,
                 tasks := setTask s.tasks id TaskStatus.done } := by
      simp [runSaveTask, ho, hc]
    rw [h1]
    exact ⟨rfl, loadCache_serialized s.config⟩
  · intro s op hl hsave
    cases op with
    | addOrUpdate a dn n ni fr => exact cacheSave_sync_full hl
    | remove a =>
        rcases hget : assocGet s.config.furbies a with _ | f
        · simp [opSchedulesSave, hget] at hsave
        · have heq : applyCacheOp (CacheOp.remove a) s =
              cacheSave { s with config := ⟨assocRemove s.config.furbies a⟩ } := by
            simp [applyCacheOp, cacheRemove, hget]
          rw [heq]
          exact cacheSave_sync_full hl
    | clear => exact cacheSave_sync_full hl
    | updateName a n ni =>
        rcases hget : assocGet s.config.furbies a with _ | f
        · simp [opSchedulesSave, hget] at hsave
        · have heq : applyCacheOp (CacheOp.updateName a n ni) s =
              cacheSave { s with config := ⟨assocSet s.config.furbies a
                { f with name := some n, name_id := some ni,
                         last_seen := s.now }⟩ } := by
            simp [applyCacheOp, update_name, hget]
          rw [heq]
          exact cacheSave_sync_full hl
    | saveTaskRuns => simp [opSchedulesSave] at hsave

/-- C6 witness: round trip of a one-entry config, and the synchronous
fallback write of `add_or_update` with no event loop. -/
theorem C6_persistence_roundtrip_witness :
    parseConfig (serializeConfig ⟨[("AA", KnownFurby.mk "AA" 0 none none none
      none)]⟩) = some ⟨[("AA", KnownFurby.mk "AA" 0 none none none none)]⟩ ∧
    (initCache FileState.absent false).loopRunning = false ∧
    opSchedulesSave (CacheOp.addOrUpdate "AA" none none none none)
      (initCache FileState.absent false) = true ∧
    loadCache (applyCacheOp (CacheOp.addOrUpdate "AA" none none none none)
        (initCache FileState.absent false)).file =
      (applyCacheOp (CacheOp.addOrUpdate "AA" none none none none)
        (initCache FileState.absent false)).config := by
  refine ⟨C6_persistence_roundtrip.1 _, rfl, rfl, ?_⟩
  exact (C6_persistence_roundtrip.2.2.2 (initCache FileState.absent false)
    (CacheOp.addOrUpdate "AA" none none none none) rfl rfl).2

/-- C7: the three state-publishing methods of the MQTT bridge are a pure
one-way mirror: they emit messages and leave every field of the
`HomeAssistantMQTT` object unchanged. -/
theorem C7_publish_pure_mirror (s : HomeAssistantMQTT) (red green blue : Nat)
    (ledOn connected : Bool) (mood_type : String) (value : Nat) :
    (publish_antenna_state s red green blue ledOn).1 = s ∧
    (publish_connection_state s connected).1 = s ∧
    (publish_mood_state s mood_type value).1 = s := by
  rcases hc : s.client with _ | u <;>
    simp [publish_antenna_state, publish_connection_state, publish_mood_state,
      hc]

/-- C8: the cache read operations mutate nothing; `get_all` is sorted by
`last_seen`, newest first, and is a permutation of the stored entries;
`get_most_recent` is `None` exactly on an empty cache and otherwise returns a
stored entry of maximal `last_seen`. -/
theorem C8_cache_reads (s : CacheState) (a : String) :
    (cacheGet s a).1 = s ∧ (get_all s).1 = s ∧ (get_addresses s).1 = s ∧
    (get_most_recent s).1 = s ∧
    (get_all s).2.Pairwise descLastSeen ∧
    (get_all s).2.Perm (s.config.furbies.map Prod.snd) ∧
    ((get_most_recent s).2 = none ↔ s.config.furbies = []) ∧
    (∀ f, (get_most_recent s).2 = some f →
        f ∈ s.config.furbies.map Prod.snd ∧
        ∀ g ∈ s.config.furbies.map Prod.snd, g.last_seen ≤ f.last_seen) := by
  refine ⟨rfl, rfl, rfl, rfl, sortByLastSeenDesc_pairwise _,
    sortByLastSeenDesc_perm _, ?_, ?_⟩
  · show (sortByLastSeenDesc (s.config.furbies.map Prod.snd)).head? = none ↔
      s.config.furbies = []
    rw [List.head?_eq_none_iff, sortByLastSeenDesc_eq_nil_iff]
    exact List.map_eq_nil_iff
  · intro f hf
    exact sortByLastSeenDesc_head_max _ f hf

/-- C8 witness: on a one-entry cache `get_most_recent` returns that entry. -/
theorem C8_cache_reads_witness :
    (get_most_recent sampleCacheState).2 =
      some (KnownFurby.mk "AA" 5 none none none none) ∧
    KnownFurby.mk "AA" 5 none none none none ∈
      sampleCacheState.config.furbies.map Prod.snd := by
  refine ⟨rfl, ?_⟩
  exact ((C8_cache_reads sampleCacheState "AA").2.2.2.2.2.2.2 _ rfl).1

/-- C9: with no client connected, `publish_discovery` and
`subscribe_to_commands` raise `RuntimeError`, while the three state
publishers return silently, publish nothing and change nothing. -/
theorem C9_not_connected_asymmetry (s : HomeAssistantMQTT)
    (hc : s.client = none) (mac : Option String)
    (cb red green blue value : Nat) (ledOn connected : Bool)
    (mood_type : String) :
    publish_discovery s mac = .error "Not connected to MQTT broker" ∧
    subscribe_to_commands s cb = .error "Not connected to MQTT broker" ∧
    publish_antenna_state s red green blue ledOn = (s, []) ∧
    publish_connection_state s connected = (s, []) ∧
    publish_mood_state s mood_type value = (s, []) := by
  simp [publish_discovery, subscribe_to_commands, publish_antenna_state,
    publish_connection_state, publish_mood_state, hc]

/-- C9 witness: a freshly constructed bridge has no client. -/
theorem C9_not_connected_asymmetry_witness :
    (mkHomeAssistantMQTT "localhost" 1883 none none "furby_connect"
        "Furby Connect").client = none ∧
    publish_discovery (mkHomeAssistantMQTT "localhost" 1883 none none
        "furby_connect" "Furby Connect") none =
      .error "Not connected to MQTT broker" :=
  ⟨rfl, (C9_not_connected_asymmetry _ rfl none 0 0 0 0 0 true true
    "excitedness").1⟩

/-- C10: cache construction is total in the cache file: a missing file, an
unreadable file or a file failing validation all yield an empty config
(zero known devices) instead of an error; a valid file yields its config. -/
theorem C10_construction_total (fs : FileState) :
    (initCache fs true).config = loadCache fs ∧
    (fs = .absent → loadCache fs = ⟨[]⟩) ∧
    (fs = .unreadable → loadCache fs = ⟨[]⟩) ∧
    (∀ j, fs = .content j → parseConfig j = none → loadCache fs = ⟨[]⟩) ∧
    (∀ j c, fs = .content j → parseConfig j = some c → loadCache fs = c) := by
  refine ⟨rfl, ?_, ?_, ?_, ?_⟩
  · intro h; subst h; rfl
  · intro h; subst h; rfl
  · intro j h hp; subst h; simp [loadCache, hp]
  · intro j c h hp; subst h; simp [loadCache, hp]

/-- C10 witness: a file holding the JSON number 5 fails validation and the
cache starts empty; an unreadable file likewise. -/
theorem C10_construction_total_witness :
    parseConfig (Json.num 5) = none ∧
    loadCache (.content (Json.num 5)) = ⟨[]⟩ ∧
    loadCache FileState.unreadable = ⟨[]⟩ := by
  refine ⟨rfl, ?_, ?_⟩
  · exact (C10_construction_total (.content (Json.num 5))).2.2.2.1
      (Json.num 5) rfl rfl
  · exact (C10_construction_total FileState.unreadable).2.2.1 rfl
